import Mathlib

/-!
Verification of the `getrandom` Solaris backend (`src/solaris.rs`) and the
dummy backend (`src/dummy.rs`).

The Rust code is shallowly embedded as explicit state passing:
- the operating system is an oracle `OS` giving, for the k-th raw
  `getrandom` syscall, the k-th `File::open("/dev/random")` attempt, and the
  k-th `read_exact` on the device, the outcome the kernel would produce
  (return code, errno, and the stream of random bytes it writes);
- the mutable program state `St` packs the thread-local `RNG_SOURCE` cell,
  the process-wide `Once` latch (`CHECKER`) with its `AVAILABLE` atomic
  boolean, the indices of the next oracle entries to consume, and a trace of
  the OS interactions performed (used to state the observational claims);
- buffers are `List Nat` of byte values; writes into a `&mut [u8]` chunk are
  modelled by `writtenBytes`.
-/

/-- `Error` from the crate root: the closed error set exposed to callers. -/
inductive Error where
  | Unknown
  | Unavailable
  deriving DecidableEq, Repr

namespace Solaris

/-- Observable OS interactions, recorded in order.  `sysRead n` is a raw
`getrandom` syscall asked for `n` bytes (the capability probe is exactly the
`sysRead 0` event, since it passes a zero-length buffer); `openDev b` is an
attempt to open `/dev/random` with outcome `b`; `devRead fid n` is a
`read_exact` of `n` bytes on the device handle identified by `fid`. -/
inductive Ev where
  | sysRead (len : Nat)
  | openDev (ok : Bool)
  | devRead (fid : Nat) (len : Nat)
  deriving DecidableEq, Repr

/-- Kernel behaviour of one raw `getrandom` syscall: the returned count
`ret`, the `errno` that `io::Error::last_os_error()` would report, and the
stream of bytes the kernel writes into the destination. -/
structure SysRes where
  ret : Int
  errno : Int
  stream : Nat → Nat

/-- Kernel behaviour of one `read_exact` on the device: whether it fills the
buffer completely (`ok`), how many bytes it managed to place before failing
otherwise (`wrote`), and the byte stream delivered. -/
structure ReadRes where
  ok : Bool
  wrote : Nat
  stream : Nat → Nat

/-- The OS oracle: outcome of the k-th raw syscall, the k-th
`File::open("/dev/random")`, and the k-th device `read_exact`. -/
structure OS where
  sysRes : Nat → SysRes
  openRes : Nat → Bool
  readRes : Nat → ReadRes

/-- `enum RngSource { GetRandom, Device(File), None }`.  A `File` is
identified by the index of the `open` attempt that produced it, which makes
handle identity observable. -/
inductive RngSource where
  | GetRandom
  | Device (fid : Nat)
  | None
  deriving DecidableEq, Repr

/-- Program state: the thread-local `RNG_SOURCE` cell of the calling thread,
the process-wide `CHECKER : Once` latch (`checkerDone`) and `AVAILABLE`
atomic boolean, the next oracle indices, and the interaction trace. -/
structure St where
  rngSource : RngSource
  checkerDone : Bool
  available : Bool
  sysCount : Nat
  openCount : Nat
  readCount : Nat
  trace : List Ev
  deriving DecidableEq, Repr

/-- The state at thread/process start: `RNG_SOURCE = None`, latch not yet
run, no OS interaction performed. -/
def initSt : St := ⟨RngSource.None, false, false, 0, 0, 0, []⟩

/-- `libc::ENOSYS` on Solaris. -/
def ENOSYS : Int := 89

/-- Writing into a `&mut [u8]` chunk: the kernel places `k` bytes from its
stream at the front; the remaining bytes keep their previous values. -/
def writtenBytes (chunk : List Nat) (k : Nat) (stream : Nat → Nat) : List Nat :=
  (List.range chunk.length).map fun j => if j < k then stream j else chunk.getD j 0

/-- `fn syscall_getrandom(dest: &mut [u8]) -> Result<(), io::Error>`.
Issues the raw syscall (consuming the next `sysRes` entry and logging a
`sysRead` event); the kernel writes `ret` bytes when `ret ≥ 0`; the call
succeeds iff `ret` is not `-1` and equals `dest.len()`, otherwise it returns
`io::Error::last_os_error()` (modelled by its errno). -/
def syscall_getrandom (os : OS) (s : St) (dest : List Nat) :
    Except Int Unit × List Nat × St :=
  let r := os.sysRes s.sysCount
  let s' : St := { s with sysCount := s.sysCount + 1,
                          trace := s.trace ++ [Ev.sysRead dest.length] }
  let k := if r.ret < 0 then 0 else min r.ret.toNat dest.length
  let dest' := writtenBytes dest k r.stream
  if r.ret = -1 ∨ r.ret ≠ (dest.length : Int) then
    (Except.error r.errno, dest', s')
  else
    (Except.ok (), dest', s')

/-- `fn is_getrandom_available() -> bool`.  Guarded by the `Once` latch: if
it already ran, return the cached `AVAILABLE` flag with no OS interaction;
otherwise issue `syscall_getrandom` on a zero-length buffer, map `Ok` to
`true`, an `ENOSYS` failure to `false`, any other failure to `true`, cache
the flag and close the latch. -/
def is_getrandom_available (os : OS) (s : St) : Bool × St :=
  if s.checkerDone then (s.available, s)
  else
    let r := syscall_getrandom os s []
    let avail := match r.1 with
      | Except.ok _ => true
      | Except.error e => if e = ENOSYS then false else true
    (avail, { r.2.2 with checkerDone := true, available := avail })

/-- `File::read_exact` on the device handle `fid`: consumes the next
`readRes` entry and logs a `devRead` event; on success the whole chunk is
overwritten from the kernel stream, on failure only a prefix may have been
placed. -/
def read_exact (os : OS) (s : St) (fid : Nat) (chunk : List Nat) :
    Bool × List Nat × St :=
  let r := os.readRes s.readCount
  let s' : St := { s with readCount := s.readCount + 1,
                          trace := s.trace ++ [Ev.devRead fid chunk.length] }
  if r.ok then (true, writtenBytes chunk chunk.length r.stream, s')
  else (false, writtenBytes chunk (min r.wrote chunk.length) r.stream, s')

/-- The `if let RngSource::None = f { *f = ... }` block of `getrandom`: when
the thread-local source is unresolved, consult `is_getrandom_available`; on
`true` resolve to `GetRandom`; on `false` try `File::open("/dev/random")`
(consuming the next `openRes` entry, logging `openDev`): success resolves to
`Device` with the fresh handle, failure returns `Err(Error::Unknown)` and
leaves the cell untouched. -/
def resolveSource (os : OS) (s : St) : Except Error Unit × St :=
  match s.rngSource with
  | RngSource.None =>
      let p := is_getrandom_available os s
      if p.1 then (Except.ok (), { p.2 with rngSource := RngSource.GetRandom })
      else
        let opened := os.openRes p.2.openCount
        let s2 : St := { p.2 with openCount := p.2.openCount + 1,
                                  trace := p.2.trace ++ [Ev.openDev opened] }
        if opened then
          (Except.ok (), { s2 with rngSource := RngSource.Device p.2.openCount })
        else (Except.error Error.Unknown, s2)
  | _ => (Except.ok (), s)

/-- The body of the `RNG_SOURCE.with` closure, run once per chunk: resolve
the source if needed, then read the chunk through the device handle if the
source is `Device`, else through the raw syscall; every failure is collapsed
to `Error::Unknown`. -/
def chunkStep (os : OS) (s : St) (chunk : List Nat) :
    Except Error Unit × List Nat × St :=
  match resolveSource os s with
  | (Except.error e, s') => (Except.error e, chunk, s')
  | (Except.ok _, s') =>
      match s'.rngSource with
      | RngSource.Device fid =>
          let r := read_exact os s' fid chunk
          (if r.1 then Except.ok () else Except.error Error.Unknown, r.2.1, r.2.2)
      | _ =>
          let r := syscall_getrandom os s' chunk
          (match r.1 with
            | Except.ok _ => Except.ok ()
            | Except.error _ => Except.error Error.Unknown, r.2.1, r.2.2)

/-- `slice::chunks_mut(n)` for `n > 0`: `⌈len/n⌉` consecutive subslices, the
i-th being the `n` elements starting at `n*i` (fewer for the last one). -/
def chunks_mut (n : Nat) (l : List Nat) : List (List Nat) :=
  (List.range ((l.length + (n - 1)) / n)).map fun i => (l.drop (n * i)).take n

/-- The `for chunk in dest.chunks_mut(1024)` loop: run `chunkStep` on each
chunk in order, stopping at the first failure (the `?` operator); returns
the overall result, the chunk list with the writes applied so far, and the
final state. -/
def fillLoop (os : OS) (s : St) (cs : List (List Nat)) :
    Except Error Unit × List (List Nat) × St :=
  match cs with
  | [] => (Except.ok (), [], s)
  | c :: rest =>
      match chunkStep os s c with
      | (Except.error e, c', s') => (Except.error e, c' :: rest, s')
      | (Except.ok _, c', s') =>
          let r := fillLoop os s' rest
          (r.1, c' :: r.2.1, r.2.2)

instance : DecidableEq (Except Error Unit) := fun a b =>
  match a, b with
  | Except.ok (), Except.ok () => isTrue rfl
  | Except.ok (), Except.error _ => isFalse (fun h => Except.noConfusion h)
  | Except.error _, Except.ok () => isFalse (fun h => Except.noConfusion h)
  | Except.error x, Except.error y =>
      if h : x = y then isTrue (by rw [h])
      else isFalse (fun hh => h (Except.error.inj hh))

/-- Result of one `pub fn getrandom` call: the `Result<(), Error>`, the
final contents of `dest`, and the final state. -/
structure Outcome where
  res : Except Error Unit
  buf : List Nat
  st : St
  deriving DecidableEq, Repr

/-- `pub fn getrandom(dest: &mut [u8]) -> Result<(), Error>` (the spec's
`fill`): split `dest` into chunks of at most 1024 bytes and run the
per-chunk closure on each. -/
def getrandom (os : OS) (s : St) (dest : List Nat) : Outcome :=
  let r := fillLoop os s (chunks_mut 1024 dest)
  ⟨r.1, r.2.1.flatten, r.2.2⟩

end Solaris

namespace Dummy

/-- `pub fn getrandom` of the dummy backend (`src/dummy.rs`): always fails
with `Error::Unavailable` and never touches `dest`. -/
def getrandom (dest : List Nat) : Except Error Unit × List Nat :=
  (Except.error Error.Unavailable, dest)

end Dummy

namespace Solaris

/-- Number of capability-probe syscalls recorded in a trace (the probe is
the unique zero-length raw syscall, since the data-path chunks produced by
`chunks_mut` are never empty). -/
def probeCount (t : List Ev) : Nat := t.count (Ev.sysRead 0)

/-- Sizes of the data reads recorded in a trace: every device `read_exact`
and every nonzero-length raw syscall (the zero-length syscall is the
capability probe, not a data read). -/
def readLens : List Ev → List Nat
  | [] => []
  | Ev.sysRead l :: es => if l = 0 then readLens es else l :: readLens es
  | Ev.devRead _ l :: es => l :: readLens es
  | Ev.openDev _ :: es => readLens es

/-- Witness oracle: every raw syscall returns 1 (so the zero-length probe
fails with errno 0, which still counts as available), opens succeed, device
reads succeed. -/
def osW1 : OS :=
  ⟨fun _ => ⟨1, 0, fun _ => 7⟩, fun _ => true, fun _ => ⟨true, 0, fun _ => 9⟩⟩

/-- Witness oracle: the raw syscall always fails with `ENOSYS`, the device
opens and its reads succeed — the fallback device path. -/
def osDevW : OS :=
  ⟨fun _ => ⟨-1, 89, fun _ => 0⟩, fun _ => true, fun _ => ⟨true, 0, fun _ => 3⟩⟩

/-- Witness oracle: the raw syscall always fails with `ENOSYS`, the first
`open` of `/dev/random` fails and every later one succeeds, device reads
succeed — the open-retry scenario. -/
def osRetryW : OS :=
  ⟨fun _ => ⟨-1, 89, fun _ => 0⟩, fun k => decide (k ≠ 0),
    fun _ => ⟨true, 0, fun _ => 3⟩⟩

/-- Witness oracle: every raw syscall returns 0 bytes (a short read for any
nonempty chunk), opens and device reads succeed. -/
def osShortW : OS :=
  ⟨fun _ => ⟨0, 0, fun _ => 0⟩, fun _ => true, fun _ => ⟨true, 0, fun _ => 3⟩⟩

/-- Witness state: a thread whose source already resolved to the fast
syscall (latch closed, flag cached as available). -/
def stGRW : St := ⟨RngSource.GetRandom, true, true, 0, 0, 0, []⟩

/-- Witness state: a thread whose source already resolved to the device
handle opened by open attempt 0 (latch closed, flag cached as
unavailable). -/
def stDevW : St := ⟨RngSource.Device 0, true, false, 1, 1, 0, []⟩

end Solaris

namespace Solaris

/-- `writtenBytes` never changes the chunk's length. -/
theorem writtenBytes_length (c : List Nat) (k : Nat) (st : Nat → Nat) :
    (writtenBytes c k st).length = c.length := by
  simp [writtenBytes]

/-- A full-length write replaces the whole chunk by the kernel stream: the
previous contents are gone. -/
theorem writtenBytes_full (c : List Nat) (st : Nat → Nat) :
    writtenBytes c c.length st = (List.range c.length).map st := by
  unfold writtenBytes
  exact List.map_congr_left fun j hj => by simp [List.mem_range.mp hj]

/-- Chunking the empty buffer gives no chunks. -/
theorem chunks_mut_nil (n : Nat) : chunks_mut n [] = [] := by
  cases n with
  | zero => simp [chunks_mut]
  | succ m => simp [chunks_mut, Nat.div_eq_of_lt (Nat.lt_succ_of_le (Nat.le_refl m))]

/-- Unfolding of `chunks_mut` on a nonempty buffer: the first `n` bytes,
then the chunks of the rest. -/
theorem chunks_mut_cons (n : Nat) (hn : 0 < n) (l : List Nat) (hl : l ≠ []) :
    chunks_mut n l = l.take n :: chunks_mut n (l.drop n) := by
  have hL : 0 < l.length := List.length_pos.mpr hl
  have key : (l.length + (n - 1)) / n = ((l.length - n) + (n - 1)) / n + 1 := by
    rcases le_or_lt l.length n with h | h
    · have h1 : l.length - n = 0 := Nat.sub_eq_zero_of_le h
      have h2 : (n - 1) / n = 0 := Nat.div_eq_of_lt (by omega)
      have h4 : l.length + (n - 1) = (l.length - 1) + n := by omega
      have h5 : (l.length - 1) / n = 0 := Nat.div_eq_of_lt (by omega)
      rw [h1, Nat.zero_add, h2, h4, Nat.add_div_right _ hn, h5]
    · have h4 : l.length + (n - 1) = ((l.length - n) + (n - 1)) + n := by omega
      rw [h4, Nat.add_div_right _ hn]
  unfold chunks_mut
  rw [List.length_drop, key, List.range_succ_eq_map, List.map_cons, List.map_map]
  have h2 : (List.range ((l.length - n + (n - 1)) / n)).map
        ((fun i => (l.drop (n * i)).take n) ∘ Nat.succ) =
      (List.range ((l.length - n + (n - 1)) / n)).map
        (fun i => ((l.drop n).drop (n * i)).take n) :=
    List.map_congr_left fun i hi => by
      simp only [Function.comp_apply, List.drop_drop]
      have h3 : n * Nat.succ i = n + n * i := by
        rw [Nat.mul_succ, Nat.add_comm]
      rw [h3]
  rw [h2]
  simp

/-- Auxiliary induction (on a length bound) for reassembling the buffer. -/
theorem chunks_mut_flatten_aux (n : Nat) (hn : 0 < n) :
    ∀ (m : Nat) (l : List Nat), l.length ≤ m → (chunks_mut n l).flatten = l := by
  intro m
  induction m with
  | zero =>
      intro l hl
      have : l = [] := List.length_eq_zero.mp (Nat.le_zero.mp hl)
      subst this
      simp [chunks_mut_nil]
  | succ m ih =>
      intro l hl
      by_cases h : l = []
      · subst h; simp [chunks_mut_nil]
      · have hd : (l.drop n).length ≤ m := by
          rw [List.length_drop]
          have : 0 < l.length := List.length_pos.mpr h
          omega
        rw [chunks_mut_cons n hn l h, List.flatten_cons, ih (l.drop n) hd,
          List.take_append_drop]

/-- Concatenating the chunks gives back the buffer. -/
theorem chunks_mut_flatten (n : Nat) (hn : 0 < n) (l : List Nat) :
    (chunks_mut n l).flatten = l :=
  chunks_mut_flatten_aux n hn l.length l Nat.le.refl

/-- The chunk sizes, in closed form. -/
theorem chunks_mut_map_length (n : Nat) (l : List Nat) :
    (chunks_mut n l).map List.length =
      (List.range ((l.length + (n - 1)) / n)).map fun i => min n (l.length - n * i) := by
  unfold chunks_mut
  rw [List.map_map]
  exact List.map_congr_left fun i hi => by simp [Function.comp]

/-- Every chunk produced by `chunks_mut` is nonempty. -/
theorem chunks_mut_ne_nil (n : Nat) (hn : 0 < n) (l : List Nat) :
    ∀ c ∈ chunks_mut n l, c ≠ [] := by
  intro c hc
  unfold chunks_mut at hc
  rw [List.mem_map] at hc
  obtain ⟨i, hi, rfl⟩ := hc
  rw [List.mem_range] at hi
  have h2 : (i + 1) * n ≤ l.length + (n - 1) := (Nat.le_div_iff_mul_le hn).mp hi
  have h4 : (i + 1) * n = n * i + n := by ring
  have h3 : n * i < l.length := by omega
  apply List.length_pos.mp
  simp only [List.length_take, List.length_drop]
  omega

end Solaris

namespace Solaris

/-- A resolved source is left alone by the resolution block. -/
theorem resolveSource_resolved (os : OS) (s : St)
    (h : s.rngSource ≠ RngSource.None) :
    resolveSource os s = (Except.ok (), s) := by
  cases hsrc : s.rngSource with
  | GetRandom => simp [resolveSource, hsrc]
  | Device fid => simp [resolveSource, hsrc]
  | None => exact absurd hsrc h

/-- Resolution when the prober reports the syscall available. -/
theorem resolveSource_none_avail (os : OS) (s : St)
    (h : s.rngSource = RngSource.None)
    (ha : (is_getrandom_available os s).1 = true) :
    resolveSource os s =
      (Except.ok (), { (is_getrandom_available os s).2 with
                        rngSource := RngSource.GetRandom }) := by
  simp [resolveSource, h, ha]

/-- Resolution when the prober reports unavailable and the device opens. -/
theorem resolveSource_none_open_ok (os : OS) (s : St)
    (h : s.rngSource = RngSource.None)
    (ha : (is_getrandom_available os s).1 = false)
    (ho : os.openRes (is_getrandom_available os s).2.openCount = true) :
    resolveSource os s =
      (Except.ok (), { (is_getrandom_available os s).2 with
        rngSource := RngSource.Device (is_getrandom_available os s).2.openCount,
        openCount := (is_getrandom_available os s).2.openCount + 1,
        trace := (is_getrandom_available os s).2.trace ++ [Ev.openDev true] }) := by
  simp [resolveSource, h, ha, ho]

/-- Resolution when the prober reports unavailable and the open fails: the
call errors with `Unknown` and `RNG_SOURCE` keeps the value `None`. -/
theorem resolveSource_none_open_fail (os : OS) (s : St)
    (h : s.rngSource = RngSource.None)
    (ha : (is_getrandom_available os s).1 = false)
    (ho : os.openRes (is_getrandom_available os s).2.openCount = false) :
    resolveSource os s =
      (Except.error Error.Unknown, { (is_getrandom_available os s).2 with
        openCount := (is_getrandom_available os s).2.openCount + 1,
        trace := (is_getrandom_available os s).2.trace ++ [Ev.openDev false] }) := by
  simp [resolveSource, h, ha, ho]

end Solaris

namespace Solaris

/-- The per-chunk closure never changes the chunk's length. -/
theorem chunkStep_len (os : OS) (s : St) (c : List Nat) :
    (chunkStep os s c).2.1.length = c.length := by
  unfold chunkStep
  rcases h : resolveSource os s with ⟨res, s'⟩
  cases res with
  | error e => simp
  | ok u =>
      cases u
      cases hsrc : s'.rngSource with
      | Device fid =>
          simp only [hsrc, read_exact]
          split <;> simp [writtenBytes_length]
      | GetRandom =>
          simp only [hsrc, syscall_getrandom]
          split <;> simp [writtenBytes_length]
      | None =>
          simp only [hsrc, syscall_getrandom]
          split <;> simp [writtenBytes_length]

/-- A full-length write erases the chunk: two chunks of the same length end
up identical. -/
theorem writtenBytes_len_eq (c c₂ : List Nat) (st : Nat → Nat)
    (h : c₂.length = c.length) :
    writtenBytes c₂ c.length st = writtenBytes c c.length st := by
  unfold writtenBytes
  rw [h]
  exact List.map_congr_left fun j hj => by simp [List.mem_range.mp hj]

/-- When the per-chunk closure succeeds, its whole outcome (result, written
chunk, state) depends only on the chunk's length, not on its previous
contents: success means every byte was overwritten. -/
theorem chunkStep_congr (os : OS) (s : St) (c c₂ : List Nat)
    (hlen : c₂.length = c.length) (hok : (chunkStep os s c).1 = Except.ok ()) :
    chunkStep os s c₂ = chunkStep os s c := by
  unfold chunkStep at hok ⊢
  rcases h : resolveSource os s with ⟨res, s'⟩
  rw [h] at hok
  cases res with
  | error e => simp at hok
  | ok u =>
      cases u
      cases hsrc : s'.rngSource with
      | Device fid =>
          simp only [hsrc] at hok ⊢
          by_cases hb : (os.readRes s'.readCount).ok
          · simp only [read_exact, hb, if_true] at hok ⊢
            simp [hlen, writtenBytes_len_eq c c₂ _ hlen, writtenBytes_full]
          · simp [read_exact, hb] at hok
      | GetRandom =>
          simp only [hsrc] at hok ⊢
          by_cases hcond : (os.sysRes s'.sysCount).ret = -1 ∨
              (os.sysRes s'.sysCount).ret ≠ (c.length : Int)
          · simp [syscall_getrandom, hcond] at hok
          · have hret : (os.sysRes s'.sysCount).ret = (c.length : Int) := by
              push_neg at hcond
              exact hcond.2
            have hcond₂ : ¬((os.sysRes s'.sysCount).ret = -1 ∨
                (os.sysRes s'.sysCount).ret ≠ (c₂.length : Int)) := by
              rw [hret, hlen]
              push_neg
              constructor
              · omega
              · rfl
            simp only [syscall_getrandom, hcond, hcond₂, if_false, if_neg]
            simp only [hret, Int.toNat_natCast, hlen]
            rw [if_neg (by omega : ¬((c.length : Int) < 0))]
            simp [writtenBytes_len_eq c c₂ _ hlen]
      | None =>
          simp only [hsrc] at hok ⊢
          by_cases hcond : (os.sysRes s'.sysCount).ret = -1 ∨
              (os.sysRes s'.sysCount).ret ≠ (c.length : Int)
          · simp [syscall_getrandom, hcond] at hok
          · have hret : (os.sysRes s'.sysCount).ret = (c.length : Int) := by
              push_neg at hcond
              exact hcond.2
            have hcond₂ : ¬((os.sysRes s'.sysCount).ret = -1 ∨
                (os.sysRes s'.sysCount).ret ≠ (c₂.length : Int)) := by
              rw [hret, hlen]
              push_neg
              constructor
              · omega
              · rfl
            simp only [syscall_getrandom, hcond, hcond₂, if_false, if_neg]
            simp only [hret, Int.toNat_natCast, hlen]
            rw [if_neg (by omega : ¬((c.length : Int) < 0))]
            simp [writtenBytes_len_eq c c₂ _ hlen]

/-- The loop preserves the chunk lengths, written or not. -/
theorem fillLoop_map_length (os : OS) (s : St) (cs : List (List Nat)) :
    (fillLoop os s cs).2.1.map List.length = cs.map List.length := by
  induction cs generalizing s with
  | nil => simp [fillLoop]
  | cons c rest ih =>
      simp only [fillLoop]
      rcases h : chunkStep os s c with ⟨r, c', s'⟩
      have hl : c'.length = c.length := by
        have h2 := chunkStep_len os s c
        rw [h] at h2
        exact h2
      cases r with
      | error e => simp [hl]
      | ok u => simp [hl, ih]

/-- When the loop succeeds, its whole outcome depends only on the chunk
lengths, not on the chunks' previous contents. -/
theorem fillLoop_congr (os : OS) (s : St) (cs cs₂ : List (List Nat))
    (hlen : cs₂.map List.length = cs.map List.length)
    (hok : (fillLoop os s cs).1 = Except.ok ()) :
    fillLoop os s cs₂ = fillLoop os s cs := by
  induction cs generalizing s cs₂ with
  | nil =>
      have h0 : cs₂ = [] := by simpa using hlen
      subst h0
      rfl
  | cons c rest ih =>
      cases cs₂ with
      | nil => simp at hlen
      | cons c₂ rest₂ =>
          simp only [List.map_cons, List.cons.injEq] at hlen
          obtain ⟨hl, hrest⟩ := hlen
          simp only [fillLoop] at hok ⊢
          rcases h : chunkStep os s c with ⟨r, c', s'⟩
          rw [h] at hok
          cases r with
          | error e => simp at hok
          | ok u =>
              cases u
              simp only [] at hok
              have hstep : chunkStep os s c₂ = chunkStep os s c :=
                chunkStep_congr os s c c₂ hl (by rw [h])
              rw [hstep, h]
              simp only []
              rw [ih s' rest₂ hrest (by simpa using hok)]

end Solaris

namespace Solaris

/-- Claim C1: for every destination buffer, the Solaris backend's
`getrandom` either returns success having overwritten every byte of the
buffer with OS-sourced data, or returns an error — never success with only
part of the buffer written.  Formalised as: on success the entire outcome
(result, final buffer, final state) is independent of the buffer's previous
contents — so no byte of the old buffer survives — and the final buffer has
exactly the requested length. -/
theorem claim_C1 (os : OS) (s : St) (d1 d2 : List Nat)
    (hok : (getrandom os s d1).res = Except.ok ())
    (hlen : d2.length = d1.length) :
    getrandom os s d2 = getrandom os s d1 ∧
      (getrandom os s d1).buf.length = d1.length := by
  constructor
  · unfold getrandom
    have hcs : (chunks_mut 1024 d2).map List.length =
        (chunks_mut 1024 d1).map List.length := by
      rw [chunks_mut_map_length, chunks_mut_map_length, hlen]
    rw [fillLoop_congr os s (chunks_mut 1024 d1) (chunks_mut 1024 d2) hcs hok]
  · show ((fillLoop os s (chunks_mut 1024 d1)).2.1).flatten.length = d1.length
    rw [List.length_flatten, fillLoop_map_length, ← List.length_flatten,
      chunks_mut_flatten 1024 (by norm_num) d1]

/-- Witness for C1 at a concrete input: a successful one-byte fill through
the fast-syscall path gives the same outcome for two different initial
buffer contents. -/
theorem claim_C1_witness :
    (getrandom osW1 initSt [5]).res = Except.ok () ∧
      ([9] : List Nat).length = ([5] : List Nat).length ∧
      (getrandom osW1 initSt [9] = getrandom osW1 initSt [5] ∧
        (getrandom osW1 initSt [5]).buf.length = ([5] : List Nat).length) :=
  ⟨by decide, rfl, claim_C1 osW1 initSt [5] [9] (by decide) rfl⟩

/-- Claim C8: for a zero-length destination buffer, `getrandom` returns
success and performs no OS interaction at all — the state (including the
trace, the oracle cursors, the prober latch and the thread-local source) is
returned unchanged. -/
theorem claim_C8 (os : OS) (s : St) :
    getrandom os s [] = ⟨Except.ok (), [], s⟩ := rfl

/-- Claim C10: a `getrandom` call on a zero-length buffer does not touch the
thread-local source state: if the calling thread's source is still `None`,
it remains `None` afterwards. -/
theorem claim_C10 (os : OS) (s : St) (h : s.rngSource = RngSource.None) :
    (getrandom os s []).st.rngSource = RngSource.None := h

/-- Witness for C10 at a concrete input: from the initial state the empty
fill leaves the source unresolved. -/
theorem claim_C10_witness :
    initSt.rngSource = RngSource.None ∧
      (getrandom osW1 initSt []).st.rngSource = RngSource.None :=
  ⟨rfl, claim_C10 osW1 initSt rfl⟩

end Solaris

/-- Claim C9: for every destination buffer, the stub backend's `getrandom`
returns `Err(Error::Unavailable)` and leaves every byte unchanged. -/
theorem claim_C9 (dest : List Nat) :
    Dummy.getrandom dest = (Except.error Error.Unavailable, dest) := rfl

namespace Solaris

/-- Claim C3: the capability probe issues the fast syscall with a
zero-length buffer (the single `sysRead 0` trace event) and maps its
outcome: success (return code 0 for zero bytes) gives `true`; failure with
errno `ENOSYS` gives `false`; any other failure gives `true`. -/
theorem claim_C3 (os : OS) (s : St) (h : s.checkerDone = false) :
    (is_getrandom_available os s).2.trace = s.trace ++ [Ev.sysRead 0] ∧
      (((os.sysRes s.sysCount).ret = 0 →
          (is_getrandom_available os s).1 = true) ∧
       ((os.sysRes s.sysCount).ret ≠ 0 →
          (os.sysRes s.sysCount).errno = ENOSYS →
          (is_getrandom_available os s).1 = false) ∧
       ((os.sysRes s.sysCount).ret ≠ 0 →
          (os.sysRes s.sysCount).errno ≠ ENOSYS →
          (is_getrandom_available os s).1 = true)) := by
  by_cases hret : (os.sysRes s.sysCount).ret = 0
  · have hcond : ¬((os.sysRes s.sysCount).ret = -1 ∨
        (os.sysRes s.sysCount).ret ≠ ((List.length ([] : List Nat) : Nat) : Int)) := by
      push_neg
      constructor
      · rw [hret]; decide
      · rw [hret]; rfl
    refine ⟨?_, ?_, ?_, ?_⟩ <;>
      simp [is_getrandom_available, syscall_getrandom, h, hcond, hret]
  · have hcond : (os.sysRes s.sysCount).ret = -1 ∨
        (os.sysRes s.sysCount).ret ≠ ((List.length ([] : List Nat) : Nat) : Int) := by
      right
      simpa using hret
    by_cases herr : (os.sysRes s.sysCount).errno = ENOSYS
    · refine ⟨?_, ?_, ?_, ?_⟩ <;>
        simp [is_getrandom_available, syscall_getrandom, h, hcond, hret, herr]
    · refine ⟨?_, ?_, ?_, ?_⟩ <;>
        simp [is_getrandom_available, syscall_getrandom, h, hcond, hret, herr]

/-- Witness for C3 at a concrete input: the first probe from the initial
state under the oracle whose syscall returns 1 with errno 0. -/
theorem claim_C3_witness :
    initSt.checkerDone = false ∧
      ((is_getrandom_available osW1 initSt).2.trace =
          initSt.trace ++ [Ev.sysRead 0] ∧
        (((osW1.sysRes initSt.sysCount).ret = 0 →
            (is_getrandom_available osW1 initSt).1 = true) ∧
         ((osW1.sysRes initSt.sysCount).ret ≠ 0 →
            (osW1.sysRes initSt.sysCount).errno = ENOSYS →
            (is_getrandom_available osW1 initSt).1 = false) ∧
         ((osW1.sysRes initSt.sysCount).ret ≠ 0 →
            (osW1.sysRes initSt.sysCount).errno ≠ ENOSYS →
            (is_getrandom_available osW1 initSt).1 = true))) :=
  ⟨rfl, claim_C3 osW1 initSt rfl⟩

/-- Claim C7: on the fast-syscall path a chunk read succeeds only if the
raw syscall returns exactly the chunk's length (third conjunct), and a
return of `-1` or any count different from the first chunk's requested
length makes the whole `getrandom` call abort immediately with
`Error::Unknown` and no further syscall (the syscall cursor advanced exactly
once: no retry). -/
theorem claim_C7 (os : OS) (s : St) (dest : List Nat)
    (hsrc : s.rngSource = RngSource.GetRandom) (hne : dest ≠ [])
    (hbad : (os.sysRes s.sysCount).ret = -1 ∨
      (os.sysRes s.sysCount).ret ≠ ((min 1024 dest.length : Nat) : Int)) :
    (getrandom os s dest).res = Except.error Error.Unknown ∧
      (getrandom os s dest).st.sysCount = s.sysCount + 1 ∧
      ∀ c : List Nat, ((syscall_getrandom os s c).1 = Except.ok () ↔
        ((os.sysRes s.sysCount).ret ≠ -1 ∧
          (os.sysRes s.sysCount).ret = (c.length : Int))) := by
  have hcons : chunks_mut 1024 dest =
      dest.take 1024 :: chunks_mut 1024 (dest.drop 1024) :=
    chunks_mut_cons 1024 (by norm_num) dest hne
  have hres : resolveSource os s = (Except.ok (), s) :=
    resolveSource_resolved os s (by rw [hsrc]; intro hc; cases hc)
  have hcond : (os.sysRes s.sysCount).ret = -1 ∨
      (os.sysRes s.sysCount).ret ≠ (((dest.take 1024).length : Nat) : Int) := by
    rw [List.length_take]
    exact hbad
  refine ⟨?_, ?_, ?_⟩
  · unfold getrandom
    rw [hcons]
    simp only [fillLoop]
    unfold chunkStep
    rw [hres]
    simp only [hsrc, syscall_getrandom]
    rw [if_pos hcond]
  · unfold getrandom
    rw [hcons]
    simp only [fillLoop]
    unfold chunkStep
    rw [hres]
    simp only [hsrc, syscall_getrandom]
    rw [if_pos hcond]
  · intro c
    constructor
    · intro hc
      by_cases hcc : (os.sysRes s.sysCount).ret = -1 ∨
          (os.sysRes s.sysCount).ret ≠ (c.length : Int)
      · simp [syscall_getrandom, hcc] at hc
      · push_neg at hcc
        exact hcc
    · intro hc
      have hcc : ¬((os.sysRes s.sysCount).ret = -1 ∨
          (os.sysRes s.sysCount).ret ≠ (c.length : Int)) := by
        push_neg
        exact hc
      simp [syscall_getrandom, hcc]

/-- Witness for C7 at a concrete input: a one-byte fill through an
already-resolved fast-syscall source where the kernel returns 0 bytes (a
short read). -/
theorem claim_C7_witness :
    stGRW.rngSource = RngSource.GetRandom ∧ ([5] : List Nat) ≠ [] ∧
      ((getrandom osShortW stGRW [5]).res = Except.error Error.Unknown ∧
        (getrandom osShortW stGRW [5]).st.sysCount = stGRW.sysCount + 1 ∧
        ((syscall_getrandom osShortW stGRW [5]).1 = Except.ok () ↔
          ((osShortW.sysRes stGRW.sysCount).ret ≠ -1 ∧
            (osShortW.sysRes stGRW.sysCount).ret =
              ((([5] : List Nat).length : Nat) : Int)))) := by
  have h := claim_C7 osShortW stGRW [5] rfl (by decide) (by decide)
  exact ⟨rfl, by decide, h.1, h.2.1, h.2.2 [5]⟩

end Solaris

namespace Solaris

/-- With the latch closed, the prober returns the cached flag and leaves
the state untouched. -/
theorem is_getrandom_available_done (os : OS) (s : St) (h : s.checkerDone = true) :
    is_getrandom_available os s = (s.available, s) := by
  simp [is_getrandom_available, h]

/-- The prober never touches the thread-local source cell. -/
theorem is_getrandom_available_rngSource (os : OS) (s : St) :
    (is_getrandom_available os s).2.rngSource = s.rngSource := by
  by_cases h : s.checkerDone
  · simp [is_getrandom_available, h]
  · simp [is_getrandom_available, syscall_getrandom, h]
    split <;> rfl

/-- After any prober call the latch is closed. -/
theorem is_getrandom_available_checkerDone (os : OS) (s : St) :
    (is_getrandom_available os s).2.checkerDone = true := by
  by_cases h : s.checkerDone
  · simp [is_getrandom_available, h]
  · simp [is_getrandom_available, syscall_getrandom, h]

/-- After any prober call the cached flag equals the returned flag. -/
theorem is_getrandom_available_available (os : OS) (s : St) :
    (is_getrandom_available os s).2.available = (is_getrandom_available os s).1 := by
  by_cases h : s.checkerDone
  · simp [is_getrandom_available, h]
  · simp [is_getrandom_available, syscall_getrandom, h]

/-- The prober appends no data-read event and at most one probe event. -/
theorem is_getrandom_available_trace (os : OS) (s : St) :
    ∃ E, (is_getrandom_available os s).2.trace = s.trace ++ E ∧ readLens E = [] ∧
      probeCount E ≤ 1 := by
  by_cases h : s.checkerDone
  · exact ⟨[], by simp [is_getrandom_available, h], by simp [readLens], by simp [probeCount]⟩
  · refine ⟨[Ev.sysRead 0], ?_, by simp [readLens], by simp [probeCount]⟩
    simp [is_getrandom_available, syscall_getrandom, h]
    split <;> rfl

/-- `readLens` distributes over trace concatenation. -/
theorem readLens_append (a b : List Ev) :
    readLens (a ++ b) = readLens a ++ readLens b := by
  induction a with
  | nil => simp [readLens]
  | cons e es ih =>
      cases e with
      | sysRead l =>
          by_cases hl : l = 0 <;> simp [readLens, hl, ih]
      | openDev b2 => simp [readLens, ih]
      | devRead f l => simp [readLens, ih]

end Solaris

namespace Solaris

/-- Source resolution appends no data-read event to the trace. -/
theorem resolveSource_trace (os : OS) (s : St) :
    ∃ E, (resolveSource os s).2.trace = s.trace ++ E ∧ readLens E = [] := by
  cases hsrc : s.rngSource with
  | None =>
      obtain ⟨E₁, hE₁, hr₁, _⟩ := is_getrandom_available_trace os s
      by_cases ha : (is_getrandom_available os s).1
      · refine ⟨E₁, ?_, hr₁⟩
        simp [resolveSource, hsrc, ha, hE₁]
      · by_cases ho : os.openRes (is_getrandom_available os s).2.openCount
        · refine ⟨E₁ ++ [Ev.openDev true], ?_, ?_⟩
          · simp [resolveSource, hsrc, ha, ho, hE₁]
          · simp [readLens_append, hr₁, readLens]
        · refine ⟨E₁ ++ [Ev.openDev false], ?_, ?_⟩
          · simp [resolveSource, hsrc, ha, ho, hE₁]
          · simp [readLens_append, hr₁, readLens]
  | GetRandom => exact ⟨[], by simp [resolveSource, hsrc], by simp [readLens]⟩
  | Device fid => exact ⟨[], by simp [resolveSource, hsrc], by simp [readLens]⟩

/-- A successful per-chunk step performs exactly one data read, of exactly
the chunk's size. -/
theorem chunkStep_ok_trace (os : OS) (s : St) (c : List Nat) (hne : c ≠ [])
    (hok : (chunkStep os s c).1 = Except.ok ()) :
    ∃ E, (chunkStep os s c).2.2.trace = s.trace ++ E ∧ readLens E = [c.length] := by
  have hcl : c.length ≠ 0 := by
    intro h0
    exact hne (List.length_eq_zero.mp h0)
  obtain ⟨E₀, hE₀, hr₀⟩ := resolveSource_trace os s
  unfold chunkStep at hok ⊢
  rcases h : resolveSource os s with ⟨res, s'⟩
  rw [h] at hok hE₀
  cases res with
  | error e => simp at hok
  | ok u =>
      cases u
      have hE : s'.trace = s.trace ++ E₀ := hE₀
      cases hsrc : s'.rngSource with
      | Device fid =>
          refine ⟨E₀ ++ [Ev.devRead fid c.length], ?_, ?_⟩
          · simp only [hsrc, read_exact]
            split <;> simp [hE]
          · simp [readLens_append, hr₀, readLens]
      | GetRandom =>
          refine ⟨E₀ ++ [Ev.sysRead c.length], ?_, ?_⟩
          · simp only [hsrc, syscall_getrandom]
            split <;> simp [hE]
          · simp [readLens_append, hr₀, readLens, hcl]
      | None =>
          refine ⟨E₀ ++ [Ev.sysRead c.length], ?_, ?_⟩
          · simp only [hsrc, syscall_getrandom]
            split <;> simp [hE]
          · simp [readLens_append, hr₀, readLens, hcl]

/-- A successful loop performs exactly one data read per chunk, of exactly
the chunk sizes in order. -/
theorem fillLoop_readLens (os : OS) (s : St) (cs : List (List Nat))
    (hne : ∀ c ∈ cs, c ≠ [])
    (hok : (fillLoop os s cs).1 = Except.ok ()) :
    ∃ E, (fillLoop os s cs).2.2.trace = s.trace ++ E ∧
      readLens E = cs.map List.length := by
  induction cs generalizing s with
  | nil => exact ⟨[], by simp [fillLoop], by simp [readLens]⟩
  | cons c rest ih =>
      simp only [fillLoop] at hok ⊢
      rcases h : chunkStep os s c with ⟨r, c', s₁⟩
      rw [h] at hok
      cases r with
      | error e => simp at hok
      | ok u =>
          cases u
          simp only [] at hok ⊢
          obtain ⟨E₁, hE₁, hr₁⟩ :=
            chunkStep_ok_trace os s c (hne c (by simp)) (by rw [h])
          rw [h] at hE₁
          obtain ⟨E₂, hE₂, hr₂⟩ :=
            ih s₁ (fun d hd => hne d (by simp [hd])) (by simpa using hok)
          have hE : s₁.trace = s.trace ++ E₁ := hE₁
          refine ⟨E₁ ++ E₂, ?_, ?_⟩
          · simp [hE₂, hE]
          · simp [readLens_append, hr₁, hr₂]

end Solaris

namespace Solaris

/-- The empty trace holds no probe. -/
theorem probeCount_nil : probeCount [] = 0 := rfl

/-- Unfolding of `probeCount` on a cons. -/
theorem probeCount_cons (e : Ev) (t : List Ev) :
    probeCount (e :: t) = probeCount t + (if e = Ev.sysRead 0 then 1 else 0) := by
  simp [probeCount, List.count_cons, beq_iff_eq]

/-- `probeCount` distributes over trace concatenation. -/
theorem probeCount_append (a b : List Ev) :
    probeCount (a ++ b) = probeCount a + probeCount b := by
  simp [probeCount, List.count_append]

/-- A per-chunk step on an already-resolved source performs exactly one
event: a data read of the chunk's size — never an `open`, never a probe,
and on the device path always through the stored handle; the source cell,
the latch and the cached flag are untouched. -/
theorem chunkStep_resolved (os : OS) (s : St) (c : List Nat)
    (h : s.rngSource ≠ RngSource.None) :
    ∃ e, (chunkStep os s c).2.2.rngSource = s.rngSource ∧
      (chunkStep os s c).2.2.trace = s.trace ++ [e] ∧
      (chunkStep os s c).2.2.checkerDone = s.checkerDone ∧
      (chunkStep os s c).2.2.available = s.available ∧
      (∀ n, e = Ev.sysRead n → n = c.length) ∧
      (∀ b, e ≠ Ev.openDev b) ∧
      (∀ fid, s.rngSource = RngSource.Device fid →
        ∀ f l, e = Ev.devRead f l → f = fid) := by
  have hres : resolveSource os s = (Except.ok (), s) := resolveSource_resolved os s h
  unfold chunkStep
  rw [hres]
  cases hsrc : s.rngSource with
  | None => exact absurd hsrc h
  | GetRandom =>
      refine ⟨Ev.sysRead c.length, ?_, ?_, ?_, ?_, ?_, ?_, ?_⟩
      · simp only [hsrc, syscall_getrandom]
        split <;> simp [hsrc]
      · simp only [hsrc, syscall_getrandom]
        split <;> rfl
      · simp only [hsrc, syscall_getrandom]
        split <;> rfl
      · simp only [hsrc, syscall_getrandom]
        split <;> rfl
      · intro n hn
        cases hn
        rfl
      · intro b hb
        cases hb
      · intro fid hf f l hel
        cases hf
  | Device fid =>
      refine ⟨Ev.devRead fid c.length, ?_, ?_, ?_, ?_, ?_, ?_, ?_⟩
      · simp only [hsrc, read_exact]
        split <;> simp [hsrc]
      · simp only [hsrc, read_exact]
        split <;> rfl
      · simp only [hsrc, read_exact]
        split <;> rfl
      · simp only [hsrc, read_exact]
        split <;> rfl
      · intro n hn
        cases hn
      · intro b hb
        cases hb
      · intro fid' hf f l hel
        cases hf
        cases hel
        rfl

end Solaris

namespace Solaris

/-- The loop on an already-resolved source never changes the source cell,
never opens the device, and on the device path reads only through the
stored handle. -/
theorem fillLoop_resolved (os : OS) (s : St) (cs : List (List Nat))
    (h : s.rngSource ≠ RngSource.None) :
    (fillLoop os s cs).2.2.rngSource = s.rngSource ∧
      ∃ E, (fillLoop os s cs).2.2.trace = s.trace ++ E ∧
        (∀ b, Ev.openDev b ∉ E) ∧
        (∀ fid, s.rngSource = RngSource.Device fid →
          ∀ f l, Ev.devRead f l ∈ E → f = fid) := by
  induction cs generalizing s with
  | nil => exact ⟨rfl, [], by simp [fillLoop], by simp, by simp⟩
  | cons c rest ih =>
      obtain ⟨e, h1, h2, h3, h4, h5, h6, h7⟩ := chunkStep_resolved os s c h
      simp only [fillLoop]
      rcases hc : chunkStep os s c with ⟨r, c', s₁⟩
      rw [hc] at h1 h2
      have h1' : s₁.rngSource = s.rngSource := h1
      have h2' : s₁.trace = s.trace ++ [e] := h2
      cases r with
      | error e2 =>
          refine ⟨h1', [e], h2', ?_, ?_⟩
          · intro b hb
            simp only [List.mem_singleton] at hb
            exact h6 b hb.symm
          · intro fid hf f l hel
            simp only [List.mem_singleton] at hel
            exact h7 fid hf f l hel.symm
      | ok u =>
          cases u
          have hs₁ : s₁.rngSource ≠ RngSource.None := by
            rw [h1']
            exact h
          obtain ⟨hrs, E₂, hE₂, hopen₂, hdev₂⟩ := ih s₁ hs₁
          refine ⟨?_, e :: E₂, ?_, ?_, ?_⟩
          · rw [hrs, h1']
          · rw [hE₂, h2']
            simp
          · intro b hb
            rcases List.mem_cons.mp hb with hb | hb
            · exact h6 b hb.symm
            · exact hopen₂ b hb
          · intro fid hf f l hel
            rcases List.mem_cons.mp hel with he | he
            · exact h7 fid hf f l he.symm
            · exact hdev₂ fid (by rw [h1']; exact hf) f l he

/-- Claim C5: the per-thread source state is monotonic: once resolved to
`GetRandom` or `Device`, no `getrandom` call resets or changes it; no
further `open` of the device is ever attempted; and in the `Device` case
every device read performed by the call uses exactly the file handle stored
at resolution time. -/
theorem claim_C5 (os : OS) (s : St) (dest : List Nat)
    (h : s.rngSource ≠ RngSource.None) :
    (getrandom os s dest).st.rngSource = s.rngSource ∧
      ∃ E, (getrandom os s dest).st.trace = s.trace ++ E ∧
        (∀ b, Ev.openDev b ∉ E) ∧
        (∀ fid, s.rngSource = RngSource.Device fid →
          ∀ f l, Ev.devRead f l ∈ E → f = fid) :=
  fillLoop_resolved os s (chunks_mut 1024 dest) h

/-- Witness for C5 at a concrete input: a two-byte fill on a thread whose
source is the device handle of open attempt 0. -/
theorem claim_C5_witness :
    stDevW.rngSource ≠ RngSource.None ∧
      ((getrandom osDevW stDevW [5, 6]).st.rngSource = stDevW.rngSource ∧
        ∃ E, (getrandom osDevW stDevW [5, 6]).st.trace = stDevW.trace ++ E ∧
          (∀ b, Ev.openDev b ∉ E) ∧
          (∀ fid, stDevW.rngSource = RngSource.Device fid →
            ∀ f l, Ev.devRead f l ∈ E → f = fid)) :=
  ⟨by decide, claim_C5 osDevW stDevW [5, 6] (by decide)⟩

end Solaris

namespace Solaris

/-- State shape after one raw syscall. -/
theorem syscall_getrandom_st (os : OS) (s : St) (dest : List Nat) :
    (syscall_getrandom os s dest).2.2 =
      { s with sysCount := s.sysCount + 1,
               trace := s.trace ++ [Ev.sysRead dest.length] } := by
  simp only [syscall_getrandom]
  split <;> rfl

/-- State shape after one device read. -/
theorem read_exact_st (os : OS) (s : St) (fid : Nat) (chunk : List Nat) :
    (read_exact os s fid chunk).2.2 =
      { s with readCount := s.readCount + 1,
               trace := s.trace ++ [Ev.devRead fid chunk.length] } := by
  simp only [read_exact]
  split <;> rfl

/-- With the latch open, the prober appends exactly the zero-length probe
event. -/
theorem is_getrandom_available_trace_not_done (os : OS) (s : St)
    (h : s.checkerDone = false) :
    (is_getrandom_available os s).2.trace = s.trace ++ [Ev.sysRead 0] := by
  simp [is_getrandom_available, syscall_getrandom, h]
  split <;> rfl

end Solaris

namespace Solaris

/-- Probe accounting for one per-chunk step: at most one probe event is
appended; none (and the cached flag is untouched) when the latch is already
closed; and whenever the latch ends up open, it was open before and no
probe ran. -/
theorem chunkStep_probe (os : OS) (s : St) (c : List Nat) (hne : c ≠ []) :
    ∃ E, (chunkStep os s c).2.2.trace = s.trace ++ E ∧
      probeCount E ≤ 1 ∧
      (s.checkerDone = true →
        probeCount E = 0 ∧ (chunkStep os s c).2.2.checkerDone = true ∧
        (chunkStep os s c).2.2.available = s.available) ∧
      ((chunkStep os s c).2.2.checkerDone = false →
        s.checkerDone = false ∧ probeCount E = 0) := by
  have hcl : c.length ≠ 0 := fun h0 => hne (List.length_eq_zero.mp h0)
  by_cases hsrc : s.rngSource = RngSource.None
  case neg =>
      obtain ⟨e, h1, h2, h3, h4, h5, h6, h7⟩ := chunkStep_resolved os s c hsrc
      have hpe : probeCount [e] = 0 := by
        cases e with
        | sysRead n =>
            have hn := h5 n rfl
            subst hn
            simp [probeCount_cons, probeCount_nil, hcl]
        | openDev b => simp [probeCount_cons, probeCount_nil]
        | devRead f l => simp [probeCount_cons, probeCount_nil]
      refine ⟨[e], h2, by omega, ?_, ?_⟩
      · intro hd
        exact ⟨hpe, by rw [h3, hd], h4⟩
      · intro hd
        rw [h3] at hd
        exact ⟨hd, hpe⟩
  case pos =>
      obtain ⟨E₀, hE₀, hpc₀, hpc₀d⟩ :
          ∃ E₀, (is_getrandom_available os s).2.trace = s.trace ++ E₀ ∧
            probeCount E₀ ≤ 1 ∧
            (s.checkerDone = true → probeCount E₀ = 0) := by
        by_cases hdone : s.checkerDone
        · rw [is_getrandom_available_done os s hdone]
          exact ⟨[], by simp, by simp [probeCount_nil], fun _ => rfl⟩
        · have hdone' : s.checkerDone = false := by
            revert hdone
            cases s.checkerDone <;> simp
          exact ⟨[Ev.sysRead 0],
            by rw [is_getrandom_available_trace_not_done os s hdone'],
            by simp [probeCount_cons, probeCount_nil],
            fun hd => absurd hd hdone⟩
      have hcd : (is_getrandom_available os s).2.checkerDone = true :=
        is_getrandom_available_checkerDone os s
      have hav : (is_getrandom_available os s).2.available =
          (is_getrandom_available os s).1 :=
        is_getrandom_available_available os s
      by_cases ha : (is_getrandom_available os s).1 = true
      · have hrs := resolveSource_none_avail os s hsrc ha
        have hstate : (chunkStep os s c).2.2 =
            { (is_getrandom_available os s).2 with
              rngSource := RngSource.GetRandom,
              sysCount := (is_getrandom_available os s).2.sysCount + 1,
              trace := (is_getrandom_available os s).2.trace ++
                [Ev.sysRead c.length] } := by
          unfold chunkStep
          rw [hrs]
          exact syscall_getrandom_st os _ c
        refine ⟨E₀ ++ [Ev.sysRead c.length], ?_, ?_, ?_, ?_⟩
        · rw [hstate]
          show (is_getrandom_available os s).2.trace ++ [Ev.sysRead c.length] =
            s.trace ++ (E₀ ++ [Ev.sysRead c.length])
          rw [hE₀, List.append_assoc]
        · simp [probeCount_append, probeCount_cons, probeCount_nil, hcl]
          omega
        · intro hd
          refine ⟨?_, by rw [hstate]; exact hcd, ?_⟩
          · simp [probeCount_append, probeCount_cons, probeCount_nil, hcl,
              hpc₀d hd]
          · rw [hstate]
            show (is_getrandom_available os s).2.available = s.available
            rw [hav]
            rw [is_getrandom_available_done os s hd]
        · intro hd
          rw [hstate] at hd
          exact absurd hcd (by rw [show (is_getrandom_available os s).2.checkerDone = false from hd]; simp)
      · have ha' : (is_getrandom_available os s).1 = false := by
          revert ha
          cases (is_getrandom_available os s).1 <;> simp
        by_cases ho : os.openRes (is_getrandom_available os s).2.openCount = true
        · have hrs := resolveSource_none_open_ok os s hsrc ha' ho
          have hstate : (chunkStep os s c).2.2 =
              { (is_getrandom_available os s).2 with
                rngSource :=
                  RngSource.Device (is_getrandom_available os s).2.openCount,
                openCount := (is_getrandom_available os s).2.openCount + 1,
                readCount := (is_getrandom_available os s).2.readCount + 1,
                trace := ((is_getrandom_available os s).2.trace ++
                  [Ev.openDev true]) ++
                  [Ev.devRead (is_getrandom_available os s).2.openCount
                    c.length] } := by
            unfold chunkStep
            rw [hrs]
            exact read_exact_st os _ _ c
          refine ⟨E₀ ++ [Ev.openDev true,
            Ev.devRead (is_getrandom_available os s).2.openCount c.length],
            ?_, ?_, ?_, ?_⟩
          · rw [hstate]
            show ((is_getrandom_available os s).2.trace ++ [Ev.openDev true]) ++
                [Ev.devRead (is_getrandom_available os s).2.openCount c.length] =
              s.trace ++ (E₀ ++ [Ev.openDev true,
                Ev.devRead (is_getrandom_available os s).2.openCount c.length])
            rw [hE₀]
            simp
          · simp [probeCount_append, probeCount_cons, probeCount_nil]
            omega
          · intro hd
            refine ⟨?_, by rw [hstate]; exact hcd, ?_⟩
            · simp [probeCount_append, probeCount_cons, probeCount_nil,
                hpc₀d hd]
            · rw [hstate]
              show (is_getrandom_available os s).2.available = s.available
              rw [hav]
              rw [is_getrandom_available_done os s hd]
          · intro hd
            rw [hstate] at hd
            exact absurd hcd (by rw [show (is_getrandom_available os s).2.checkerDone = false from hd]; simp)
        · have ho' : os.openRes (is_getrandom_available os s).2.openCount = false := by
            revert ho
            cases os.openRes (is_getrandom_available os s).2.openCount <;> simp
          have hrs := resolveSource_none_open_fail os s hsrc ha' ho'
          have hstate : (chunkStep os s c).2.2 =
              { (is_getrandom_available os s).2 with
                openCount := (is_getrandom_available os s).2.openCount + 1,
                trace := (is_getrandom_available os s).2.trace ++
                  [Ev.openDev false] } := by
            unfold chunkStep
            rw [hrs]
          refine ⟨E₀ ++ [Ev.openDev false], ?_, ?_, ?_, ?_⟩
          · rw [hstate]
            show (is_getrandom_available os s).2.trace ++ [Ev.openDev false] =
              s.trace ++ (E₀ ++ [Ev.openDev false])
            rw [hE₀, List.append_assoc]
          · simp [probeCount_append, probeCount_cons, probeCount_nil]
            omega
          · intro hd
            refine ⟨?_, by rw [hstate]; exact hcd, ?_⟩
            · simp [probeCount_append, probeCount_cons, probeCount_nil,
                hpc₀d hd]
            · rw [hstate]
              show (is_getrandom_available os s).2.available = s.available
              rw [hav]
              rw [is_getrandom_available_done os s hd]
          · intro hd
            rw [hstate] at hd
            exact absurd hcd (by rw [show (is_getrandom_available os s).2.checkerDone = false from hd]; simp)

end Solaris

namespace Solaris

/-- Probe accounting for the whole loop, by chaining the per-chunk
accounting. -/
theorem fillLoop_probe (os : OS) (s : St) (cs : List (List Nat))
    (hne : ∀ c ∈ cs, c ≠ []) :
    ∃ E, (fillLoop os s cs).2.2.trace = s.trace ++ E ∧
      probeCount E ≤ 1 ∧
      (s.checkerDone = true →
        probeCount E = 0 ∧ (fillLoop os s cs).2.2.checkerDone = true ∧
        (fillLoop os s cs).2.2.available = s.available) ∧
      ((fillLoop os s cs).2.2.checkerDone = false →
        s.checkerDone = false ∧ probeCount E = 0) := by
  induction cs generalizing s with
  | nil =>
      refine ⟨[], by simp [fillLoop], by simp [probeCount_nil], ?_, ?_⟩
      · intro hd
        exact ⟨rfl, hd, rfl⟩
      · intro hd
        exact ⟨hd, rfl⟩
  | cons c rest ih =>
      obtain ⟨E₁, hE₁, hp₁, hd₁, hf₁⟩ := chunkStep_probe os s c (hne c (by simp))
      simp only [fillLoop]
      rcases hc : chunkStep os s c with ⟨r, c', s₁⟩
      rw [hc] at hE₁ hd₁ hf₁
      have hE₁' : s₁.trace = s.trace ++ E₁ := hE₁
      have hd₁' : s.checkerDone = true →
          probeCount E₁ = 0 ∧ s₁.checkerDone = true ∧
            s₁.available = s.available := hd₁
      have hf₁' : s₁.checkerDone = false →
          s.checkerDone = false ∧ probeCount E₁ = 0 := hf₁
      cases r with
      | error e2 => exact ⟨E₁, hE₁', hp₁, hd₁', hf₁'⟩
      | ok u =>
          cases u
          obtain ⟨E₂, hE₂, hp₂, hd₂, hf₂⟩ :=
            ih s₁ (fun d hd => hne d (by simp [hd]))
          refine ⟨E₁ ++ E₂, ?_, ?_, ?_, ?_⟩
          · show (fillLoop os s₁ rest).2.2.trace = s.trace ++ (E₁ ++ E₂)
            rw [hE₂, hE₁', List.append_assoc]
          · rw [probeCount_append]
            by_cases hdone : s.checkerDone = true
            · have h1 := hd₁' hdone
              have h2 := hd₂ h1.2.1
              omega
            · by_cases hd1 : s₁.checkerDone = true
              · have h2 := hd₂ hd1
                omega
              · have hs₁f : s₁.checkerDone = false := by
                  revert hd1
                  cases s₁.checkerDone <;> simp
                have h1 := hf₁' hs₁f
                omega
          · intro hd
            have h1 := hd₁' hd
            have h2 := hd₂ h1.2.1
            refine ⟨?_, h2.2.1, ?_⟩
            · rw [probeCount_append, h1.1, h2.1]
            · show (fillLoop os s₁ rest).2.2.available = s.available
              rw [h2.2.2, h1.2.2]
          · intro hd
            have h2 := hf₂ hd
            have h1 := hf₁' h2.1
            refine ⟨h1.1, ?_⟩
            rw [probeCount_append, h1.2, h2.2]

/-- Claim C6: the capability-probe syscall runs at most once per process.
Any single `getrandom` call appends at most one probe event to the trace;
whenever the once-latch is already closed, the call appends no probe event
at all and leaves the cached flag untouched; and the latch is never
reopened (if it is open after the call, it was open before and no probe
ran).  Chained over any sequence of `getrandom` calls from the initial
state, this bounds the total number of probe syscalls by one. -/
theorem claim_C6 (os : OS) (s : St) (dest : List Nat) :
    ∃ E, (getrandom os s dest).st.trace = s.trace ++ E ∧
      probeCount E ≤ 1 ∧
      (s.checkerDone = true →
        probeCount E = 0 ∧ (getrandom os s dest).st.checkerDone = true ∧
        (getrandom os s dest).st.available = s.available) ∧
      ((getrandom os s dest).st.checkerDone = false →
        s.checkerDone = false ∧ probeCount E = 0) :=
  fillLoop_probe os s (chunks_mut 1024 dest)
    (chunks_mut_ne_nil 1024 (by norm_num) dest)

/-- Claim C2: a successful `getrandom` splits the buffer into consecutive
chunks of at most 1024 bytes (the smaller of the documented 1024-byte
syscall limit and the 1040-byte device limit) and performs exactly
`⌈L/1024⌉` underlying data reads, whose requested sizes are exactly the
chunk sizes in order; for a 3000-byte buffer the chunk sizes are exactly
1024, 1024 and 952. -/
theorem claim_C2 (os : OS) (s : St) (dest : List Nat)
    (hok : (getrandom os s dest).res = Except.ok ()) :
    (∃ E, (getrandom os s dest).st.trace = s.trace ++ E ∧
      readLens E = (chunks_mut 1024 dest).map List.length ∧
      (readLens E).length = (dest.length + 1023) / 1024) ∧
    (chunks_mut 1024 (List.replicate 3000 0)).map List.length =
      [1024, 1024, 952] := by
  constructor
  · obtain ⟨E, hE, hr⟩ := fillLoop_readLens os s (chunks_mut 1024 dest)
      (chunks_mut_ne_nil 1024 (by norm_num) dest) hok
    refine ⟨E, hE, hr, ?_⟩
    rw [hr, List.length_map]
    norm_num [chunks_mut]
  · rw [chunks_mut_map_length, List.length_replicate]
    decide

/-- Witness for C2 at a concrete input: a successful one-byte fill through
the fast-syscall path. -/
theorem claim_C2_witness :
    (getrandom osW1 initSt [5]).res = Except.ok () ∧
      ((∃ E, (getrandom osW1 initSt [5]).st.trace = initSt.trace ++ E ∧
          readLens E = (chunks_mut 1024 [5]).map List.length ∧
          (readLens E).length = (([5] : List Nat).length + 1023) / 1024) ∧
        (chunks_mut 1024 (List.replicate 3000 0)).map List.length =
          [1024, 1024, 952]) :=
  ⟨by decide, claim_C2 osW1 initSt [5] (by decide)⟩

end Solaris

namespace Solaris

/-- A per-chunk step on a device source whose read succeeds: success, and
the handle is kept. -/
theorem chunkStep_device_ok (os : OS) (s : St) (c : List Nat) (fid : Nat)
    (hsrc : s.rngSource = RngSource.Device fid)
    (hread : (os.readRes s.readCount).ok = true) :
    (chunkStep os s c).1 = Except.ok () ∧
      (chunkStep os s c).2.2.rngSource = RngSource.Device fid := by
  have hres : resolveSource os s = (Except.ok (), s) :=
    resolveSource_resolved os s (by rw [hsrc]; intro hx; cases hx)
  unfold chunkStep
  rw [hres]
  constructor
  · simp [hsrc, read_exact, hread]
  · simp [hsrc, read_exact, hread]

/-- The loop on a device source succeeds whenever every device read
succeeds. -/
theorem fillLoop_device_ok (os : OS) (s : St) (cs : List (List Nat)) (fid : Nat)
    (hsrc : s.rngSource = RngSource.Device fid)
    (hreads : ∀ k, (os.readRes k).ok = true) :
    (fillLoop os s cs).1 = Except.ok () := by
  induction cs generalizing s with
  | nil => rfl
  | cons c rest ih =>
      simp only [fillLoop]
      rcases hc : chunkStep os s c with ⟨r, c', s₁⟩
      have h := chunkStep_device_ok os s c fid hsrc (hreads s.readCount)
      rw [hc] at h
      have h1 : r = Except.ok () := h.1
      subst h1
      exact ih s₁ h.2

/-- From an unresolved source, with the fast syscall reported unavailable
and a device that opens and reads successfully, `getrandom` succeeds. -/
theorem getrandom_unresolved_device_ok (os : OS) (s : St) (dest : List Nat)
    (hsrc : s.rngSource = RngSource.None)
    (hflag : (is_getrandom_available os s).1 = false)
    (hopen : ∀ k, os.openRes k = true)
    (hreads : ∀ k, (os.readRes k).ok = true) :
    (getrandom os s dest).res = Except.ok () := by
  by_cases hd : dest = []
  · subst hd
    rfl
  · have hcons := chunks_mut_cons 1024 (by norm_num) dest hd
    unfold getrandom
    rw [hcons]
    simp only [fillLoop]
    rcases hc : chunkStep os s (dest.take 1024) with ⟨r, c', s₁⟩
    have hrs := resolveSource_none_open_ok os s hsrc hflag (hopen _)
    have hok : (chunkStep os s (dest.take 1024)).1 = Except.ok () ∧
        (chunkStep os s (dest.take 1024)).2.2.rngSource =
          RngSource.Device (is_getrandom_available os s).2.openCount := by
      constructor
      · unfold chunkStep
        rw [hrs]
        simp [read_exact, hreads]
      · unfold chunkStep
        rw [hrs]
        simp [read_exact, hreads]
    rw [hc] at hok
    have h1 : r = Except.ok () := hok.1
    subst h1
    exact fillLoop_device_ok os s₁ _ _ hok.2 hreads

/-- Claim C4: if opening the fallback device fails during lazy source
resolution, `getrandom` returns `Error::Unknown` and the thread's source
state remains `None` (the open failure is not cached), so a subsequent call
on the same thread — here under an oracle in which the device has become
available — attempts the open again and succeeds. -/
theorem claim_C4 (os : OS) (s : St) (dest : List Nat)
    (hsrc : s.rngSource = RngSource.None) (hne : dest ≠ [])
    (hflag : (is_getrandom_available os s).1 = false)
    (hopen : os.openRes (is_getrandom_available os s).2.openCount = false) :
    (getrandom os s dest).res = Except.error Error.Unknown ∧
      (getrandom os s dest).st.rngSource = RngSource.None ∧
      ∃ os₂ : OS, (getrandom os₂ (getrandom os s dest).st dest).res =
        Except.ok () := by
  have hcons := chunks_mut_cons 1024 (by norm_num) dest hne
  have hrs := resolveSource_none_open_fail os s hsrc hflag hopen
  have hst : (getrandom os s dest).st =
      { (is_getrandom_available os s).2 with
        openCount := (is_getrandom_available os s).2.openCount + 1,
        trace := (is_getrandom_available os s).2.trace ++
          [Ev.openDev false] } := by
    unfold getrandom
    rw [hcons]
    simp only [fillLoop]
    unfold chunkStep
    rw [hrs]
  have hres : (getrandom os s dest).res = Except.error Error.Unknown := by
    unfold getrandom
    rw [hcons]
    simp only [fillLoop]
    unfold chunkStep
    rw [hrs]
  have hsrc' : (getrandom os s dest).st.rngSource = RngSource.None := by
    rw [hst]
    show (is_getrandom_available os s).2.rngSource = RngSource.None
    rw [is_getrandom_available_rngSource]
    exact hsrc
  have hcd' : (getrandom os s dest).st.checkerDone = true := by
    rw [hst]
    show (is_getrandom_available os s).2.checkerDone = true
    exact is_getrandom_available_checkerDone os s
  have hav' : (getrandom os s dest).st.available = false := by
    rw [hst]
    show (is_getrandom_available os s).2.available = false
    rw [is_getrandom_available_available]
    exact hflag
  refine ⟨hres, hsrc', osDevW, ?_⟩
  have hflag₂ : (is_getrandom_available osDevW (getrandom os s dest).st).1 =
      false := by
    rw [is_getrandom_available_done osDevW _ hcd']
    exact hav'
  exact getrandom_unresolved_device_ok osDevW _ dest hsrc' hflag₂
    (fun k => rfl) (fun k => rfl)

/-- Witness for C4 at a concrete input: the probe reports `ENOSYS`, the
first open of `/dev/random` fails, the next one succeeds. -/
theorem claim_C4_witness :
    initSt.rngSource = RngSource.None ∧ ([5] : List Nat) ≠ [] ∧
      (is_getrandom_available osRetryW initSt).1 = false ∧
      osRetryW.openRes (is_getrandom_available osRetryW initSt).2.openCount =
        false ∧
      ((getrandom osRetryW initSt [5]).res = Except.error Error.Unknown ∧
        (getrandom osRetryW initSt [5]).st.rngSource = RngSource.None ∧
        ∃ os₂ : OS, (getrandom os₂ (getrandom osRetryW initSt [5]).st [5]).res =
          Except.ok ()) :=
  ⟨rfl, by decide, by decide, by decide,
    claim_C4 osRetryW initSt [5] rfl (by decide) (by decide) (by decide)⟩

end Solaris

namespace Solaris

/-- Witness for C6 at a concrete input: probe accounting for a one-byte
fill from the initial state. -/
theorem claim_C6_witness :
    ∃ E, (getrandom osW1 initSt [5]).st.trace = initSt.trace ++ E ∧
      probeCount E ≤ 1 ∧
      (initSt.checkerDone = true →
        probeCount E = 0 ∧ (getrandom osW1 initSt [5]).st.checkerDone = true ∧
        (getrandom osW1 initSt [5]).st.available = initSt.available) ∧
      ((getrandom osW1 initSt [5]).st.checkerDone = false →
        initSt.checkerDone = false ∧ probeCount E = 0) :=
  claim_C6 osW1 initSt [5]

end Solaris
